import Mathlib

/-!
Verification of the sigma rounded-bar-chart plugin against its specification.

The development shallowly embeds the plugin's pure computations:

* `chartData` — the Row Model normalization in `App` (`src/unnamed/part_001`,
  the `chartData` IIFE): deduplication of categories (first occurrence wins),
  per-column numeric extraction with `Number(cell ?? 0)` coercion, and the
  precomputed `total`.
* `radiusFor`, `overlaySeries`, `buildGradientStops` — the three stacking
  modes of the Series Builder (`RoundedBarChart.tsx` and `part_000`).
* `gridInsets`, `isVerticalLegend`, `legendRightWidth` — the Geometry Engine
  and Legend Planner.
* `targetLineData`, `markLineConfigOf`, `targetLineSeries`,
  `targetLineValue` — the Target Line Positioner and its value extraction.
* `clickHandler` — the Hit Tester's ZRender click handler.

JavaScript numbers are modelled as `ℚ`.  Host cells may be absent
(`undefined` / `null`); a numeric column cell is therefore `Option ℚ` with
`none` for an absent cell, following the host input contract that value
columns are numeric.  For the target-line column, where the code's own
`isNaN` check distinguishes non-numeric cells, cells are modelled by the
richer `Cell` type whose `Number(·)` coercion returns `none` for NaN.
-/

/-- A raw host cell as seen by the target-line extraction.  `null` covers the
JS `null` value (whose `Number` coercion is `0`), `num` a numeric cell, and
`str` a non-numeric textual cell (whose `Number` coercion is NaN; numeric
strings are not produced by the host's numeric columns). -/
inductive Cell
  | null : Cell
  | num (q : ℚ) : Cell
  | str (s : String) : Cell
deriving DecidableEq

/-- JS `Number(c)` on a cell; `none` represents NaN. -/
def Cell.toNumber : Cell → Option ℚ
  | .null => some 0
  | .num q => some q
  | .str _ => none

/-- The host element data (`sigmaData`): columns keyed by column id, exposed
through the three coercion views the plugin uses.  `strCol` is the column
after the `String(cell ?? '')` coercion used for the category axis, `numCol`
the numeric view used for value columns (`none` = absent cell), and
`cellCol` the raw view read by the target-line extraction.  A column id that
is not present in the data yields `none` (the JS lookup gives `undefined`,
which is not an array). -/
structure SigmaData where
  strCol : String → Option (List String)
  numCol : String → Option (List (Option ℚ))
  cellCol : String → Option (List Cell)

/-- One normalized row of the Row Model (`BarRow` in `App`). -/
structure BarRow where
  category : String
  values : List ℚ
  total : ℚ
deriving DecidableEq

/-- `Number(sigmaData[id]?.[i] ?? 0)`: the numeric cell of column `id` at row
index `i`, with a missing column, out-of-range index, or absent cell all
coerced to `0`. -/
def lookupVal (numCol : String → Option (List (Option ℚ))) (id : String) (i : ℕ) : ℚ :=
  match numCol id with
  | none => 0
  | some col => ((col.get? i).join).getD 0

/-- The `categories.forEach` aggregation loop of `chartData`: walks the
category column keeping the first occurrence of each category (the JS code
keys a `Map` by category and returns on `aggregated.has(category)`), building
each kept row's `values` from the same row index `i` and its `total` by
`values.reduce((s, v) => s + v, 0)`. -/
def buildRows (numCol : String → Option (List (Option ℚ))) (ids : List String) :
    List String → ℕ → List String → List BarRow
  | [], _, _ => []
  | c :: rest, i, seen =>
    if c ∈ seen then buildRows numCol ids rest (i + 1) seen
    else
      { category := c,
        values := ids.map (fun id => lookupVal numCol id i),
        total := (ids.map (fun id => lookupVal numCol id i)).foldl (· + ·) 0 }
        :: buildRows numCol ids rest (i + 1) (c :: seen)

/-- The Row Model normalization (`chartData` in `App`).  Returns `[]` when
the data source, the column metadata, the category column id, or the value
column ids are missing, or when the looked-up category column is not an
array; otherwise aggregates by first category occurrence. -/
def chartData (sigmaData : Option SigmaData) (hasColumnInfo : Bool)
    (catId : Option String) (valueIdArray : List String) : List BarRow :=
  match sigmaData, catId with
  | some d, some cid =>
    if !hasColumnInfo || valueIdArray.isEmpty then []
    else
      match d.strCol cid with
      | none => []
      | some categories => buildRows d.numCol valueIdArray categories 0 []
  | _, _ => []

/-- Specification-side description of first-occurrence deduplication: keeps
each category the first time it appears (relative to an accumulator of
already-seen categories), dropping later duplicates. -/
def firstOccurrences : List String → List String → List String
  | [], _ => []
  | c :: rest, seen =>
    if c ∈ seen then firstOccurrences rest seen
    else c :: firstOccurrences rest (c :: seen)

/-- `reduce((s, v) => s + v, a)` agrees with the mathematical sum. -/
theorem foldl_add_eq_sum (l : List ℚ) (a : ℚ) : l.foldl (· + ·) a = a + l.sum := by
  induction l generalizing a with
  | nil => simp
  | cons x xs ih => simp [List.foldl_cons, ih, add_assoc]

theorem buildRows_length_total (numCol : String → Option (List (Option ℚ)))
    (ids : List String) (cats : List String) (i : ℕ) (seen : List String) :
    ∀ r ∈ buildRows numCol ids cats i seen,
      r.values.length = ids.length ∧ r.total = r.values.sum := by
  induction cats generalizing i seen with
  | nil => intro r hr; simp [buildRows] at hr
  | cons c rest ih =>
    intro r hr
    by_cases hc : c ∈ seen
    · rw [buildRows, if_pos hc] at hr
      exact ih (i + 1) seen r hr
    · rw [buildRows, if_neg hc] at hr
      rcases List.mem_cons.mp hr with hr | hr
      · subst hr
        refine ⟨by simp, ?_⟩
        simp [foldl_add_eq_sum]
      · exact ih (i + 1) (c :: seen) r hr

theorem buildRows_map_category (numCol : String → Option (List (Option ℚ)))
    (ids : List String) (cats : List String) (i : ℕ) (seen : List String) :
    (buildRows numCol ids cats i seen).map (·.category) = firstOccurrences cats seen := by
  induction cats generalizing i seen with
  | nil => simp [buildRows, firstOccurrences]
  | cons c rest ih =>
    by_cases hc : c ∈ seen
    · rw [buildRows, if_pos hc, firstOccurrences, if_pos hc]
      exact ih (i + 1) seen
    · rw [buildRows, if_neg hc, firstOccurrences, if_neg hc]
      simp only [List.map_cons]
      rw [ih (i + 1) (c :: seen)]

theorem buildRows_first_index (numCol : String → Option (List (Option ℚ)))
    (ids : List String) (cats : List String) (i : ℕ) (seen : List String) :
    ∀ r ∈ buildRows numCol ids cats i seen,
      r.category ∉ seen ∧
      ∃ k, cats.get? k = some r.category ∧
        (∀ j < k, cats.get? j ≠ some r.category) ∧
        r.values = ids.map (fun id => lookupVal numCol id (i + k)) := by
  induction cats generalizing i seen with
  | nil => intro r hr; simp [buildRows] at hr
  | cons c rest ih =>
    intro r hr
    by_cases hc : c ∈ seen
    · rw [buildRows, if_pos hc] at hr
      obtain ⟨hns, k, hk, hfirst, hvals⟩ := ih (i + 1) seen r hr
      have hne : r.category ≠ c := fun h => hns (h ▸ hc)
      refine ⟨hns, k + 1, by simpa using hk, ?_, by simpa [Nat.add_assoc, Nat.add_comm 1 k] using hvals⟩
      intro j hj
      cases j with
      | zero => simp [Ne.symm hne]
      | succ j' => simpa using hfirst j' (Nat.lt_of_succ_lt_succ hj)
    · rw [buildRows, if_neg hc] at hr
      rcases List.mem_cons.mp hr with hr | hr
      · subst hr
        exact ⟨hc, 0, by simp, by simp, by simp⟩
      · obtain ⟨hns, k, hk, hfirst, hvals⟩ := ih (i + 1) (c :: seen) r hr
        have hne : r.category ≠ c := fun h => hns (by simp [h])
        refine ⟨fun h => hns (List.mem_cons_of_mem _ h), k + 1, by simpa using hk, ?_,
          by simpa [Nat.add_assoc, Nat.add_comm 1 k] using hvals⟩
        intro j hj
        cases j with
        | zero => simp [Ne.symm hne]
        | succ j' => simpa using hfirst j' (Nat.lt_of_succ_lt_succ hj)

/-- C2: Row Model normalization — rows come out in first-occurrence category
order with later duplicate categories dropped (first wins: each row's values
are read from the earliest index at which its category occurs, never summed
across duplicates), each row has exactly one numeric entry per selected value
column (missing cells coerced to `0` by `lookupVal`), and `total` equals the
sum of `values`. -/
theorem chartData_normalization (d : SigmaData) (cid : String)
    (ids : List String) (cats : List String)
    (hids : ids ≠ []) (hcats : d.strCol cid = some cats) :
    ((chartData (some d) true (some cid) ids).map (·.category) =
        firstOccurrences cats []) ∧
    ∀ r ∈ chartData (some d) true (some cid) ids,
      r.values.length = ids.length ∧
      r.total = r.values.sum ∧
      ∃ k, cats.get? k = some r.category ∧
        (∀ j < k, cats.get? j ≠ some r.category) ∧
        r.values = ids.map (fun id => lookupVal d.numCol id k) := by
  have hne : ids.isEmpty = false := by
    cases ids with
    | nil => exact absurd rfl hids
    | cons a l => rfl
  have hunfold : chartData (some d) true (some cid) ids =
      buildRows d.numCol ids cats 0 [] := by
    simp [chartData, hne, hcats]
  constructor
  · rw [hunfold]; exact buildRows_map_category d.numCol ids cats 0 []
  · intro r hr
    rw [hunfold] at hr
    obtain ⟨h1, h2⟩ := buildRows_length_total d.numCol ids cats 0 [] r hr
    obtain ⟨-, k, hk, hfirst, hvals⟩ := buildRows_first_index d.numCol ids cats 0 [] r hr
    exact ⟨h1, h2, k, hk, hfirst, by simpa using hvals⟩

/-- Concrete host data used to witness the Row Model theorem: category column
`["A", "B", "A"]` and two value columns with an absent cell. -/
def demoData : SigmaData where
  strCol := fun id => if id = "cat" then some ["A", "B", "A"] else none
  numCol := fun id =>
    if id = "v1" then some [some 10, some 5, some 7]
    else if id = "v2" then some [some 20, none, some 1]
    else none
  cellCol := fun _ => none

theorem chartData_normalization_witness :
    (chartData (some demoData) true (some "cat") ["v1", "v2"]).map (·.category) =
      firstOccurrences ["A", "B", "A"] [] :=
  (chartData_normalization demoData "cat" ["v1", "v2"] ["A", "B", "A"]
    (by decide) (by simp [demoData])).1

/-- An ECharts `borderRadius` value: either a single number applied to all
four corners or a per-corner array `[topLeft, topRight, bottomRight,
bottomLeft]`. -/
inductive BorderRadius
  | uniform (r : ℚ) : BorderRadius
  | perCorner (tl tr br bl : ℚ) : BorderRadius
deriving DecidableEq

/-- The four corner radii `(topLeft, topRight, bottomRight, bottomLeft)`
denoted by a `borderRadius` value. -/
def BorderRadius.corners : BorderRadius → ℚ × ℚ × ℚ × ℚ
  | .uniform r => (r, r, r, r)
  | .perCorner tl tr br bl => (tl, tr, br, bl)

/-- Segmented-mode corner rounding (`radiusFor` in `RoundedBarChart.tsx`):
a single series is rounded on all corners, otherwise only the first series'
left pair and the last series' right pair are rounded. -/
def radiusFor (n : ℕ) (r : ℚ) (idx : ℕ) : BorderRadius :=
  if n = 1 then .uniform r
  else if idx = 0 then .perCorner r 0 0 r
  else if idx = n - 1 then .perCorner 0 r r 0
  else .uniform 0

/-- C1: in segmented stacking mode with `n ≥ 2` series, series `0` rounds
only the left corner pair, series `n − 1` only the right pair, and every
interior series has zero rounding on all corners; with `n = 1` all four
corners get radius `r`. -/
theorem radiusFor_segmented (n : ℕ) (r : ℚ) :
    (2 ≤ n →
      (radiusFor n r 0).corners = (r, 0, 0, r) ∧
      (radiusFor n r (n - 1)).corners = (0, r, r, 0) ∧
      ∀ idx, 0 < idx → idx < n - 1 →
        (radiusFor n r idx).corners = (0, 0, 0, 0)) ∧
    ∀ idx, (radiusFor 1 r idx).corners = (r, r, r, r) := by
  constructor
  · intro hn
    have hn1 : n ≠ 1 := by omega
    refine ⟨?_, ?_, ?_⟩
    · simp [radiusFor, hn1, BorderRadius.corners]
    · have : n - 1 ≠ 0 := by omega
      simp [radiusFor, hn1, this, BorderRadius.corners]
    · intro idx h0 hlt
      have hi0 : idx ≠ 0 := by omega
      have hin : idx ≠ n - 1 := by omega
      simp [radiusFor, hn1, hi0, hin, BorderRadius.corners]
  · intro idx
    simp [radiusFor, BorderRadius.corners]

theorem radiusFor_segmented_witness :
    (radiusFor 3 8 0).corners = (8, 0, 0, 8) ∧
    (radiusFor 3 8 2).corners = (0, 8, 8, 0) ∧
    (radiusFor 3 8 1).corners = (0, 0, 0, 0) := by
  obtain ⟨h2, -⟩ := radiusFor_segmented 3 8
  obtain ⟨ha, hb, hc⟩ := h2 (by decide)
  exact ⟨ha, hb, hc 1 (by decide) (by decide)⟩

/-- Legend orientation test (`isVerticalLegend` in both chart variants). -/
def isVerticalLegend (legendPosition : String) : Bool :=
  legendPosition == "Left" || legendPosition == "Right" ||
    legendPosition == "Top Right" || legendPosition == "Bottom Right"

/-- The legend `orient` field: vertical exactly when `isVerticalLegend`. -/
def legendOrient (legendPosition : String) : String :=
  if isVerticalLegend legendPosition then "vertical" else "horizontal"

/-- Right-anchored legend test (`legendOnRight`). -/
def legendOnRight (legendPosition : String) : Bool :=
  legendPosition == "Right" || legendPosition == "Top Right" ||
    legendPosition == "Bottom Right"

/-- Reserved width of a right-anchored visible legend (`legendRightWidth`):
`28 + Math.max(...seriesNames.map(sn => sn.length), 0) * 7`. -/
def legendRightWidth (showLegend : Bool) (legendPosition : String)
    (seriesNames : List String) : ℚ :=
  if showLegend && legendOnRight legendPosition then
    28 + (((seriesNames.map String.length).foldl max 0 : ℕ) : ℚ) * 7
  else 0

theorem foldl_max_eq_foldr (l : List ℕ) (a : ℕ) :
    l.foldl max a = max a (l.foldr max 0) := by
  induction l generalizing a with
  | nil => simp
  | cons x xs ih => simp [List.foldl_cons, ih, max_assoc]

/-- C8: the legend is vertical exactly for positions Left, Right, Top Right
and Bottom Right (horizontal otherwise), and a visible right-anchored legend
reserves `28 + 7 ×` (the character length of the longest series name) of
right-side width. -/
theorem legend_planner (legendPosition : String) (seriesNames : List String) :
    (legendOrient legendPosition = "vertical" ↔
      (legendPosition = "Left" ∨ legendPosition = "Right" ∨
        legendPosition = "Top Right" ∨ legendPosition = "Bottom Right")) ∧
    (legendOrient legendPosition = "horizontal" ↔
      ¬(legendPosition = "Left" ∨ legendPosition = "Right" ∨
        legendPosition = "Top Right" ∨ legendPosition = "Bottom Right")) ∧
    (legendOnRight legendPosition = true →
      legendRightWidth true legendPosition seriesNames =
        28 + 7 * (((seriesNames.map String.length).foldr max 0 : ℕ) : ℚ)) := by
  refine ⟨?_, ?_, ?_⟩
  · constructor
    · intro h
      by_contra hmem
      push_neg at hmem
      obtain ⟨h1, h2, h3, h4⟩ := hmem
      have : isVerticalLegend legendPosition = false := by
        simp [isVerticalLegend, h1, h2, h3, h4]
      simp [legendOrient, this] at h
    · intro hmem
      have : isVerticalLegend legendPosition = true := by
        rcases hmem with h | h | h | h <;> simp [isVerticalLegend, h]
      simp [legendOrient, this]
  · constructor
    · intro h hmem
      have : isVerticalLegend legendPosition = true := by
        rcases hmem with h' | h' | h' | h' <;> simp [isVerticalLegend, h']
      simp [legendOrient, this] at h
    · intro hmem
      push_neg at hmem
      obtain ⟨h1, h2, h3, h4⟩ := hmem
      have : isVerticalLegend legendPosition = false := by
        simp [isVerticalLegend, h1, h2, h3, h4]
      simp [legendOrient, this]
  · intro hr
    simp only [legendRightWidth, hr, Bool.and_self, if_pos, Bool.true_and, if_true]
    rw [foldl_max_eq_foldr, Nat.zero_max]
    ring

theorem legend_planner_witness :
    legendRightWidth true "Right" ["Revenue", "Cost"] = 77 := by
  have h := (legend_planner "Right" ["Revenue", "Cost"]).2.2 (by decide)
  have hmax : List.foldr max 0 (List.map String.length ["Revenue", "Cost"]) = 7 := by decide
  rw [h, hmax]
  norm_num

/-- Resolved plot-rectangle insets (the ECharts `grid` block). -/
structure GridInsets where
  top : ℚ
  bottom : ℚ
  left : ℚ
  right : ℚ
deriving DecidableEq

/-- The Geometry Engine (the `grid` computation shared by both chart
variants): resolves the four plot-rectangle insets from padding, title,
axis visibility, legend placement and label visibility.  `title` is the JS
title string (`!title` is its emptiness test) and `showLabel` is
`labelStyle !== 'None'`. -/
def gridInsets (showPadding : Bool) (chartPadding : ℚ) (title : String)
    (showXAxis showYAxis showLegend : Bool) (legendPosition : String)
    (labelStyle : String) (seriesNames : List String) : GridInsets :=
  let effectivePadding : ℚ := if showPadding then chartPadding else 0
  let showLabel : Bool := labelStyle != "None"
  let legendOffset : ℚ := if showLegend then 32 else 0
  let lrw : ℚ := legendRightWidth showLegend legendPosition seriesNames
  let legendAtBottom : Bool := showLegend && legendPosition == "Bottom"
  let legendAtTop : Bool := showLegend && legendPosition == "Top"
  let legendAtLeft : Bool := showLegend && legendPosition == "Left"
  { top :=
      if !showPadding && title == "" && !legendAtTop then 0
      else (if title != "" then effectivePadding + 32 else effectivePadding) +
        (if legendAtTop then legendOffset else 0),
    bottom :=
      if !showPadding && !showXAxis && !legendAtBottom then 0
      else effectivePadding + (if legendAtBottom then legendOffset else 0),
    left :=
      if !showPadding && !showYAxis && !legendAtLeft then 0
      else effectivePadding + (if legendAtLeft then (80 : ℚ) else 0),
    right :=
      if legendOnRight legendPosition && showLegend then
        max lrw (if showLabel then (80 : ℚ) else 0) + effectivePadding
      else (if showLabel then effectivePadding + 80 else effectivePadding) }

/-- C3 counterexample: with padding disabled, no title, legend hidden and
both axes hidden, but value labels enabled (`labelStyle = "First Value /
Total"`), the right inset is 80, not 0 — the claim's universal
quantification over such configurations fails. -/
theorem gridInsets_labels_nonzero_right :
    (gridInsets false 16 "" false false false "Bottom" "First Value / Total"
      ["Revenue", "Cost"]).right ≠ 0 := by
  simp only [gridInsets, legendOnRight, legendRightWidth]
  norm_num
  decide

/-- C3 (amended): with padding disabled, no title, legend hidden, both axes
hidden, and value labels also disabled (`labelStyle = "None"`), all four
resolved plot-rectangle insets equal 0. -/
theorem gridInsets_chromeless_zero (chartPadding : ℚ) (legendPosition : String)
    (seriesNames : List String)
    (hpad : showPadding = false) (htitle : title = "")
    (hx : showXAxis = false) (hy : showYAxis = false)
    (hleg : showLegend = false) (hlab : labelStyle = "None") :
    gridInsets showPadding chartPadding title showXAxis showYAxis showLegend
      legendPosition labelStyle seriesNames = ⟨0, 0, 0, 0⟩ := by
  subst hpad htitle hx hy hleg hlab
  simp [gridInsets, legendRightWidth]

theorem gridInsets_chromeless_zero_witness :
    gridInsets false 16 "" false false false "Right" "None" ["Revenue"] =
      ⟨0, 0, 0, 0⟩ :=
  gridInsets_chromeless_zero 16 "Right" ["Revenue"] rfl rfl rfl rfl rfl rfl

/-- One endpoint of the target mark line, in data space: `xAxis` is the
target value on the numeric axis, `yAxis` a coordinate on the hidden
secondary 0–1 axis. -/
structure MarkLinePoint where
  xAxis : ℚ
  yAxis : ℚ
deriving DecidableEq

/-- The mark-line `data` of `markLineConfig` in `RoundedBarChart.tsx`: a
single segment at the target value, spanning a centered fraction
`f = Math.min(1, Math.max(0, targetLineHeight / 100))` of the hidden 0–1
axis. -/
def targetLineData (targetLineValue targetLineHeight : ℚ) :
    List (MarkLinePoint × MarkLinePoint) :=
  let f := min 1 (max 0 (targetLineHeight / 100))
  let half := f / 2
  [(⟨targetLineValue, 1 / 2 - half⟩, ⟨targetLineValue, 1 / 2 + half⟩)]

/-- `hasTargetLine` gating of `markLineConfig`: present only when the target
line is enabled and its value is a number (`none` models JS `NaN`). -/
def markLineConfigOf : Bool → Option ℚ → ℚ → Option (List (MarkLinePoint × MarkLinePoint))
  | true, some v, h => some (targetLineData v h)
  | _, _, _ => none

/-- The dummy `__targetline__` bar series that carries the mark line on the
hidden secondary axis; absent when `markLineConfigOf` is `none`. -/
structure TargetLineSeries where
  name : String
  markLine : List (MarkLinePoint × MarkLinePoint)

/-- `targetLineSeries` in `RoundedBarChart.tsx`: the singleton dummy series
when the mark line exists, `[]` otherwise. -/
def targetLineSeries (showTargetLine : Bool) (tlv : Option ℚ) (tlh : ℚ) :
    List TargetLineSeries :=
  match markLineConfigOf showTargetLine tlv tlh with
  | some cfg => [⟨"__targetline__", cfg⟩]
  | none => []

/-- C7: the rendered target-line span has endpoints `0.5 − f/2` and
`0.5 + f/2` on the hidden 0–1 axis, where `f = clamp(h/100, 0, 1)`, so its
midpoint is exactly `0.5` — the vertical center of the plot — independently
of the row count (the hidden axis is fixed to `[0, 1]` for every row count,
including a single row). -/
theorem targetLineData_centered (v h : ℚ) :
    ∃ a b,
      targetLineData v h = [(⟨v, a⟩, ⟨v, b⟩)] ∧
      a = 1 / 2 - (min 1 (max 0 (h / 100))) / 2 ∧
      b = 1 / 2 + (min 1 (max 0 (h / 100))) / 2 ∧
      (a + b) / 2 = 1 / 2 := by
  refine ⟨1 / 2 - (min 1 (max 0 (h / 100))) / 2,
    1 / 2 + (min 1 (max 0 (h / 100))) / 2, rfl, rfl, rfl, by ring⟩

/-- C9: when the target-line value is missing or non-numeric (JS `NaN`,
modelled by `none`), the chart specification carries no mark line and no
target-line dummy series, for any enablement flag and height — and the
computation is total, so no error is raised. -/
theorem no_targetLine_when_nan (showTargetLine : Bool) (tlh : ℚ) :
    markLineConfigOf showTargetLine none tlh = none ∧
    targetLineSeries showTargetLine none tlh = [] := by
  cases showTargetLine <;> exact ⟨rfl, rfl⟩

/-- The target-line value extraction in `App` (`src/unnamed/part_001`):
reads the first entry of the selected column, yielding `none` (JS `NaN`)
when no column is selected, the data source is absent, the looked-up column
is not an array, or the column is empty; otherwise `Number(col[0])` (with
the redundant `isNaN(v) ? NaN : v` guard). -/
def targetLineValue (targetLineColId : Option String)
    (sigmaData : Option SigmaData) : Option ℚ :=
  match targetLineColId, sigmaData with
  | some colId, some d =>
    match d.cellCol colId with
    | none => none
    | some col =>
      match col.head? with
      | none => none
      | some c => c.toNumber
  | _, _ => none

/-- C10: the target-line value depends only on the first entry of the
selected column — for a column whose cell list is `c :: rest` the result is
`Number(c)` whatever `rest` is — and an unselected column, an absent data
source, a non-array column, or an empty column all yield NaN (`none`), which
omits the line. -/
theorem targetLineValue_first_entry_only (d : SigmaData) (colId : String) :
    (∀ c rest, d.cellCol colId = some (c :: rest) →
      targetLineValue (some colId) (some d) = c.toNumber) ∧
    (targetLineValue none (some d) = none) ∧
    (targetLineValue (some colId) none = none) ∧
    (d.cellCol colId = none → targetLineValue (some colId) (some d) = none) ∧
    (d.cellCol colId = some [] → targetLineValue (some colId) (some d) = none) := by
  refine ⟨?_, rfl, rfl, ?_, ?_⟩
  · intro c rest hcol
    simp [targetLineValue, hcol]
  · intro hcol
    simp [targetLineValue, hcol]
  · intro hcol
    simp [targetLineValue, hcol]

/-- Host data instances that differ only past the first entry of the
target-line column, used to witness the first-entry-only theorem. -/
def tlDemoA : SigmaData where
  strCol := fun _ => none
  numCol := fun _ => none
  cellCol := fun id => if id = "t" then some [.num 42, .num 7, .str "x"] else none

theorem targetLineValue_first_entry_only_witness :
    targetLineValue (some "t") (some tlDemoA) = some 42 := by
  have h := (targetLineValue_first_entry_only tlDemoA "t").1 (.num 42) [.num 7, .str "x"]
    (by simp [tlDemoA])
  simpa [Cell.toNumber] using h

/-- The ZRender click handler of the Hit Tester (`handler` in
`RoundedBarChart.tsx`).  The ECharts geometry queries `containPixel('grid',
·)` and `convertFromPixel('grid', ·)` belong to the external rendering
engine and are abstracted as the function parameters `containPixel` and
`convertFromPixel`; `data` is the current row list read through a live
reference.  The result is the emitted category, or `none` when no event is
emitted: the handler bails out when interactivity is off, when the pixel is
outside the plot rectangle, when the pixel cannot be converted, or when the
rounded category-axis coordinate (JS `Math.round`, i.e. `⌊x + 1/2⌋`) is
outside `[0, rowCount)`. -/
def clickHandler (interactable : Bool) (containPixel : ℚ × ℚ → Bool)
    (convertFromPixel : ℚ × ℚ → Option (ℚ × ℚ)) (data : List BarRow)
    (e : ℚ × ℚ) : Option String :=
  if !interactable then none
  else if !containPixel e then none
  else
    match convertFromPixel e with
    | none => none
    | some pt =>
      let yIdx : ℤ := round pt.2
      if 0 ≤ yIdx ∧ yIdx < (data.length : ℤ) then
        (data.get? yIdx.toNat).map (·.category)
      else none

/-- C4: a click at a pixel outside the plot rectangle never emits a category
event, a click whose rounded category-axis coordinate falls outside
`[0, rowCount)` never emits one, and an in-rectangle click that converts to
a coordinate rounding (to the nearest integer) into `[0, rowCount)` emits
exactly one event carrying the category of the row at that index (the
handler is gated on the interactivity flag, so the emitting case assumes
`interactable = true`; the two silent cases hold for any flag value). -/
theorem clickHandler_hit_test (interactable : Bool)
    (containPixel : ℚ × ℚ → Bool) (convertFromPixel : ℚ × ℚ → Option (ℚ × ℚ))
    (data : List BarRow) (e : ℚ × ℚ) :
    (containPixel e = false →
      clickHandler interactable containPixel convertFromPixel data e = none) ∧
    (∀ pt, convertFromPixel e = some pt →
      ¬(0 ≤ round pt.2 ∧ round pt.2 < (data.length : ℤ)) →
      clickHandler interactable containPixel convertFromPixel data e = none) ∧
    (∀ pt, interactable = true → containPixel e = true →
      convertFromPixel e = some pt →
      0 ≤ round pt.2 → round pt.2 < (data.length : ℤ) →
      ∃ row, data.get? (round pt.2).toNat = some row ∧
        clickHandler interactable containPixel convertFromPixel data e =
          some row.category) := by
  refine ⟨?_, ?_, ?_⟩
  · intro hout
    cases interactable <;> simp [clickHandler, hout]
  · intro pt hpt hrange
    cases interactable with
    | false => simp [clickHandler]
    | true =>
      cases hcp : containPixel e with
      | false => simp [clickHandler, hcp]
      | true => simp [clickHandler, hcp, hpt, hrange]
  · intro pt hint hin hpt h0 hlt
    have hnat : (round pt.2).toNat < data.length := by omega
    have hrow : data.get? (round pt.2).toNat =
        some (data.get ⟨(round pt.2).toNat, hnat⟩) := List.get?_eq_get hnat
    refine ⟨data.get ⟨(round pt.2).toNat, hnat⟩, hrow, ?_⟩
    simp [clickHandler, hint, hin, hpt, h0, hlt, hrow]

theorem clickHandler_hit_test_witness :
    clickHandler true (fun _ => true) (fun _ => some (3, 2 / 5))
      [⟨"A", [1], 1⟩] (7, 9) = some "A" := by
  have hround : round ((2 : ℚ) / 5) = 0 := by
    rw [round_eq]
    norm_num
  obtain ⟨row, hrow, hout⟩ :=
    (clickHandler_hit_test true (fun _ => true) (fun _ => some (3, 2 / 5))
      [⟨"A", [1], 1⟩] (7, 9)).2.2 (3, 2 / 5) rfl rfl rfl
      (by rw [hround]) (by rw [hround]; norm_num)
  rw [hout]
  rw [hround] at hrow
  simp only [Int.toNat_zero, List.get?] at hrow
  cases hrow
  rfl

/-- One series of the cumulative-overlay mode (`midBarCurves = true` in
`RoundedBarChart.tsx`): its name, the index it had before the emission
order was reversed, and its per-row cumulative data. -/
structure OverlaySeries where
  name : String
  originalIdx : ℕ
  cumData : List ℚ
deriving DecidableEq

/-- `row.values.slice(0, idx + 1).reduce((s, v) => s + v, 0)`: the running
sum of series `0..idx` for one row. -/
def cumAt (row : BarRow) (idx : ℕ) : ℚ :=
  (row.values.take (idx + 1)).foldl (· + ·) 0

/-- The cumulative-overlay series list: one series per name carrying running
sums, emitted in reversed order (`[...seriesData].reverse()`). -/
def overlaySeries (seriesNames : List String) (data : List BarRow) :
    List OverlaySeries :=
  ((seriesNames.enum).map
    (fun p => ⟨p.2, p.1, data.map (fun row => cumAt row p.1)⟩)).reverse

theorem cumAt_eq_sum_take (row : BarRow) (idx : ℕ) :
    cumAt row idx = (row.values.take (idx + 1)).sum := by
  simp [cumAt, foldl_add_eq_sum]

theorem cumAt_mono (row : BarRow) (hpos : ∀ v ∈ row.values, 0 ≤ v) (k : ℕ) :
    cumAt row k ≤ cumAt row (k + 1) := by
  rw [cumAt_eq_sum_take, cumAt_eq_sum_take]
  by_cases h : k + 1 < row.values.length
  · rw [List.sum_take_succ _ _ h]
    have hm : row.values[k + 1] ∈ row.values := List.getElem_mem h
    have := hpos _ hm
    linarith
  · have h1 : row.values.length ≤ k + 1 := Nat.le_of_not_lt h
    rw [List.take_of_length_le h1, List.take_of_length_le (Nat.le_succ_of_le h1)]

theorem chain'_le_map_const {α : Type} (l : List α) (c : ℚ) :
    List.Chain' (· ≤ ·) (l.map (fun _ => c)) := by
  induction l with
  | nil => simp
  | cons a t ih =>
    cases t with
    | nil => simp
    | cons b t' => exact List.Chain'.cons le_rfl ih

/-- C5 counterexample: with a negative second value (`values = [5, -3]`),
the two overlay series are emitted with per-row extents `[2, 5]` — an
increasing list — so the emission is not in descending cumulative order as
the claim states for every row. -/
theorem overlaySeries_not_descending :
    ¬ List.Chain' (· ≥ ·)
      ((overlaySeries ["A", "B"] [⟨"r", [5, -3], 2⟩]).map
        (fun s => s.cumData.getD 0 0)) := by
  have h : (overlaySeries ["A", "B"] [⟨"r", [5, -3], 2⟩]).map
      (fun s => s.cumData.getD 0 0) = [2, 5] := by
    simp [overlaySeries, cumAt, List.enum]
    norm_num
  rw [h]
  simp only [List.chain'_cons, List.chain'_singleton, and_true, ge_iff_le]
  norm_num

/-- C5 (amended): in cumulative-overlay mode every emitted series' data is
the running sum of its own and all preceding series' values
(`sum(values[0..i])` for original index `i`), and the series are emitted in
reversed original order — which is descending cumulative order (per-row
non-increasing extents) whenever all series values are nonnegative; with
negative values the reversed order need not be descending. -/
theorem overlaySeries_running_sums (seriesNames : List String)
    (data : List BarRow) :
    (∀ s ∈ overlaySeries seriesNames data,
      s.cumData = data.map (fun row => (row.values.take (s.originalIdx + 1)).sum)) ∧
    ((overlaySeries seriesNames data).map (·.originalIdx) =
      (List.range seriesNames.length).reverse) ∧
    ((∀ row ∈ data, ∀ v ∈ row.values, 0 ≤ v) →
      ∀ j : ℕ, List.Chain' (· ≥ ·)
        ((overlaySeries seriesNames data).map (fun s => s.cumData.getD j 0))) := by
  refine ⟨?_, ?_, ?_⟩
  · intro s hs
    rw [overlaySeries, List.mem_reverse, List.mem_map] at hs
    obtain ⟨p, -, hp⟩ := hs
    subst hp
    simp [cumAt_eq_sum_take]
  · rw [overlaySeries, List.map_reverse, List.map_map]
    have : ((fun s : OverlaySeries => s.originalIdx) ∘
        (fun p : ℕ × String => (⟨p.2, p.1, data.map (fun row => cumAt row p.1)⟩ :
          OverlaySeries))) = Prod.fst := rfl
    rw [this, List.enum_map_fst]
  · intro hpos j
    rw [overlaySeries, List.map_reverse, List.map_map, List.chain'_reverse]
    have hmap : ((fun s : OverlaySeries => s.cumData.getD j 0) ∘
        (fun p : ℕ × String => (⟨p.2, p.1, data.map (fun row => cumAt row p.1)⟩ :
          OverlaySeries))) =
        (fun p : ℕ × String => (data.map (fun row => cumAt row p.1)).getD j 0) := rfl
    rw [hmap]
    have hfst : (seriesNames.enum.map
        (fun p : ℕ × String => (data.map (fun row => cumAt row p.1)).getD j 0)) =
        ((seriesNames.enum.map Prod.fst).map
          (fun i : ℕ => (data.map (fun row => cumAt row i)).getD j 0)) := by
      rw [List.map_map]; rfl
    rw [hfst, List.enum_map_fst]
    cases hj : data.get? j with
    | none =>
      have hj' : data[j]? = none := by rw [← List.get?_eq_getElem?]; exact hj
      have hz : ∀ i : ℕ, (data.map (fun row => cumAt row i)).getD j 0 = 0 := by
        intro i
        rw [List.getD_eq_getElem?_getD, List.getElem?_map]
        simp [hj']
      have : ((List.range seriesNames.length).map
          (fun i : ℕ => (data.map (fun row => cumAt row i)).getD j 0)) =
          ((List.range seriesNames.length).map (fun _ => (0 : ℚ))) := by
        exact List.map_congr_left (fun i _ => hz i)
      rw [this]
      exact List.Chain'.imp (fun a b h => h) (chain'_le_map_const _ 0)
    | some row =>
      have hj' : data[j]? = some row := by rw [← List.get?_eq_getElem?]; exact hj
      have hrow : ∀ i : ℕ, (data.map (fun row => cumAt row i)).getD j 0 =
          cumAt row i := by
        intro i
        rw [List.getD_eq_getElem?_getD, List.getElem?_map]
        simp [hj']
      have hmem : row ∈ data := List.get?_mem hj
      have hchain : List.Chain' (fun a b : ℕ => cumAt row a ≤ cumAt row b)
          (List.range seriesNames.length) := by
        cases n : seriesNames.length with
        | zero => simp
        | succ m =>
          rw [List.chain'_range_succ]
          intro k hk
          exact cumAt_mono row (hpos row hmem) k
      rw [List.chain'_map]
      refine hchain.imp ?_
      intro a b h
      rw [hrow a, hrow b]
      exact h

theorem overlaySeries_running_sums_witness :
    List.Chain' (· ≥ ·)
      ((overlaySeries ["A", "B"] [⟨"r", [1, 2], 3⟩]).map
        (fun s => s.cumData.getD 0 0)) := by
  refine (overlaySeries_running_sums ["A", "B"] [⟨"r", [1, 2], 3⟩]).2.2 ?_ 0
  intro row hrow v hv
  simp only [List.mem_singleton] at hrow
  subst hrow
  simp only [List.mem_cons, List.mem_singleton, List.not_mem_nil, or_false] at hv
  rcases hv with h | h <;> rw [h] <;> norm_num

/-- One color stop of the gradient-pill fill. -/
structure GradStop where
  offset : ℚ
  color : String
deriving DecidableEq

/-- `Math.max(0, Math.min(1, x))`, as written in `buildGradientStops`. -/
def clampStop (x : ℚ) : ℚ := max 0 (min 1 x)

/-- `colors[i] ?? colors[colors.length - 1]`: cyclic fallback to the last
palette color (JS yields `undefined` when the palette is empty). -/
def colorAt (colors : List String) (i : ℕ) : String :=
  (colors.get? i).getD (colors.getLastD "undefined")

/-- The `row.values.forEach` loop of `buildGradientStops`: walking the
values cumulatively, pushing two stops per series — one at the boundary
offset before adding the value and one after — both in that series' color. -/
def gradStops (colors : List String) (total : ℚ) :
    List ℚ → ℕ → ℚ → List GradStop
  | [], _, _ => []
  | v :: rest, i, cum =>
    ⟨clampStop (cum / total), colorAt colors i⟩ ::
      ⟨clampStop ((cum + v) / total), colorAt colors i⟩ ::
        gradStops colors total rest (i + 1) (cum + v)

/-- `buildGradientStops` in `src/unnamed/part_000`: a single flat stop in
the first color for a degenerate row (`total <= 0`), otherwise the
cumulative two-stops-per-series gradient. -/
def buildGradientStops (colors : List String) (row : BarRow) : List GradStop :=
  if row.total ≤ 0 then [⟨0, (colors.head?).getD "#ccc"⟩]
  else gradStops colors row.total row.values 0 0

theorem gradStops_length (colors : List String) (total : ℚ)
    (values : List ℚ) (i : ℕ) (cum : ℚ) :
    (gradStops colors total values i cum).length = 2 * values.length := by
  induction values generalizing i cum with
  | nil => simp [gradStops]
  | cons v rest ih =>
    simp [gradStops, ih (i + 1) (cum + v), List.length_cons]
    ring

theorem gradStops_offsets_clamped (colors : List String) (total : ℚ)
    (values : List ℚ) (i : ℕ) (cum : ℚ) :
    ∀ s ∈ gradStops colors total values i cum, 0 ≤ s.offset ∧ s.offset ≤ 1 := by
  induction values generalizing i cum with
  | nil => intro s hs; simp [gradStops] at hs
  | cons v rest ih =>
    intro s hs
    simp only [gradStops, List.mem_cons] at hs
    rcases hs with h | h | h
    · subst h
      exact ⟨le_max_left 0 _, max_le (by norm_num) (min_le_left 1 _)⟩
    · subst h
      exact ⟨le_max_left 0 _, max_le (by norm_num) (min_le_left 1 _)⟩
    · exact ih (i + 1) (cum + v) s h

theorem clampStop_mono {a b : ℚ} (h : a ≤ b) : clampStop a ≤ clampStop b :=
  max_le_max le_rfl (min_le_min le_rfl h)

theorem gradStops_chain (colors : List String) (total : ℚ) (htot : 0 < total)
    (values : List ℚ) (hpos : ∀ v ∈ values, 0 ≤ v) (i : ℕ) (cum : ℚ) :
    List.Chain' (· ≤ ·)
      (clampStop (cum / total) ::
        (gradStops colors total values i cum).map (·.offset)) := by
  induction values generalizing i cum with
  | nil => simp [gradStops]
  | cons v rest ih =>
    have hv : 0 ≤ v := hpos v (List.mem_cons_self v rest)
    have hstep : clampStop (cum / total) ≤ clampStop ((cum + v) / total) :=
      clampStop_mono ((div_le_div_iff_of_pos_right htot).mpr (by linarith))
    have htail := ih (fun w hw => hpos w (List.mem_cons_of_mem v hw)) (i + 1) (cum + v)
    simp only [gradStops, List.map_cons]
    exact List.Chain'.cons le_rfl (List.Chain'.cons hstep htail)

/-- The gradient-pill bar fill: a flat color or a multi-stop linear
gradient. -/
inductive Fill
  | flat (color : String) : Fill
  | gradient (stops : List GradStop) : Fill
deriving DecidableEq

/-- The per-row `itemStyle.color` of `mainSeries` in `src/unnamed/part_000`:
a linear gradient of `buildGradientStops` when there is more than one series
and the row total is positive, else the flat first palette color. -/
def fillFor (n : ℕ) (colors : List String) (row : BarRow) : Fill :=
  if 1 < n ∧ 0 < row.total then .gradient (buildGradientStops colors row)
  else .flat ((colors.head?).getD "#ccc")

/-- C6 counterexample: a row with positive total but a negative series value
(`values = [5, -2, 3]`, `total = 6`) produces gradient stop offsets
`[0, 5/6, 5/6, 1/2, 1/2, 1]`, which are not non-decreasing — the claim's
universal non-decreasing assertion for `total > 0` fails. -/
theorem buildGradientStops_not_monotone :
    (0 : ℚ) < (BarRow.mk "r" [5, -2, 3] 6).total ∧
    ¬ List.Chain' (· ≤ ·)
      ((buildGradientStops ["a", "b", "c"] ⟨"r", [5, -2, 3], 6⟩).map (·.offset)) := by
  constructor
  · norm_num
  · have h : (buildGradientStops ["a", "b", "c"] ⟨"r", [5, -2, 3], 6⟩).map (·.offset) =
        [0, 5 / 6, 5 / 6, 1 / 2, 1 / 2, 1] := by
      simp only [buildGradientStops, gradStops, clampStop, List.map_cons, List.map_nil]
      norm_num [max_def, min_def]
    rw [h]
    simp only [List.chain'_cons, List.chain'_singleton, and_true]
    intro hcontra
    have := hcontra.2.2.1
    norm_num at this

/-- C6 (amended): in gradient-pill mode a row with `total = 0` gets a single
flat stop (and a flat fill) in the first palette color; a row with positive
total gets exactly `2 × seriesCount` stops whose offsets are clamped to
`[0, 1]`, and the offsets are non-decreasing whenever all series values are
nonnegative (with a negative value they need not be). -/
theorem buildGradientStops_spec (colors : List String) (row : BarRow) (n : ℕ) :
    (row.total = 0 →
      buildGradientStops colors row = [⟨0, (colors.head?).getD "#ccc"⟩] ∧
      fillFor n colors row = .flat ((colors.head?).getD "#ccc")) ∧
    (0 < row.total →
      (buildGradientStops colors row).length = 2 * row.values.length ∧
      ∀ s ∈ buildGradientStops colors row, 0 ≤ s.offset ∧ s.offset ≤ 1) ∧
    (0 < row.total → (∀ v ∈ row.values, 0 ≤ v) →
      List.Chain' (· ≤ ·) ((buildGradientStops colors row).map (·.offset))) := by
  refine ⟨?_, ?_, ?_⟩
  · intro h0
    constructor
    · rw [buildGradientStops, if_pos (le_of_eq h0)]
    · rw [fillFor, if_neg]
      rintro ⟨-, hpos⟩
      rw [h0] at hpos
      exact lt_irrefl 0 hpos
  · intro hpos
    have hne : ¬ row.total ≤ 0 := not_le.mpr hpos
    rw [buildGradientStops, if_neg hne]
    exact ⟨gradStops_length colors row.total row.values 0 0,
      gradStops_offsets_clamped colors row.total row.values 0 0⟩
  · intro hpos hvals
    have hne : ¬ row.total ≤ 0 := not_le.mpr hpos
    rw [buildGradientStops, if_neg hne]
    exact (gradStops_chain colors row.total hpos row.values hvals 0 0).tail

theorem buildGradientStops_spec_witness :
    (buildGradientStops ["a", "b"] ⟨"r", [1, 2], 3⟩).length = 2 * 2 ∧
    List.Chain' (· ≤ ·)
      ((buildGradientStops ["a", "b"] ⟨"r", [1, 2], 3⟩).map (·.offset)) := by
  have h := buildGradientStops_spec ["a", "b"] ⟨"r", [1, 2], 3⟩ 2
  refine ⟨(h.2.1 (by norm_num)).1, h.2.2 (by norm_num) ?_⟩
  intro v hv
  simp only [List.mem_cons, List.not_mem_nil, or_false] at hv
  rcases hv with h' | h' <;> rw [h'] <;> norm_num
